import Mathlib

/-!
Verification of the copy/backup orchestration layer of the oras repository.

The Go sources embedded here are:
- the copy command file (functions doCopy, recursiveCopy, prepareCopyOption);
- cmd/oras/root/backup.go (functions runBackup, backupTag, prepareBackupOutput,
  findTagsToBackup, parseArtifactsToBackup, and the tag grammar tagRegexp).

Pure functions are translated into Lean functions; fallible Go code returning
(value, error) is translated into Except; filesystem effects are made explicit
by passing the set of existing paths as state.
-/

namespace Oras

/-! ### Data model -/

/-- Descriptor mirrors ocispec.Descriptor: media type, digest, size and
optional annotations. The digest is modelled as its string form. -/
structure Descriptor where
  mediaType : String
  digest : String
  size : Int
  annotations : List (String × String)
deriving Repr, DecidableEq

/-- Index mirrors ocispec.Index restricted to the field the code reads:
the list of child manifest descriptors. -/
structure Index where
  manifests : List Descriptor
deriving Repr, DecidableEq

/-- contentEqual mirrors content.Equal of oras-go: two descriptors are equal
iff digest, size and media type match; annotations are ignored. -/
def contentEqual (a b : Descriptor) : Bool :=
  a.digest == b.digest && a.size == b.size && a.mediaType == b.mediaType

/-- MediaTypeImageIndex is ocispec.MediaTypeImageIndex, the OCI image index
media type. -/
def MediaTypeImageIndex : String := "application/vnd.oci.image.index.v1+json"

/-- Modelled from the spec: docker.MediaTypeManifestList is defined in the
internal/docker package of this repository, which is not among the provided
sources. Per the spec it is the Docker manifest list (image-index variant)
media type; its standard value is used here. -/
def MediaTypeManifestList : String := "application/vnd.docker.distribution.manifest.list.v2+json"

/-- PredecessorFn is the shape of ExtendedCopyOptions.FindPredecessors: a
predecessor lookup mapping a descriptor to the list of its referrers, or
an error. The context and store arguments of the Go function are dropped
since every call in the embedded code passes the same ones through. -/
abbrev PredecessorFn := Descriptor → Except String (List Descriptor)

/-- ExtendedCopyOptions keeps the only field of oras.ExtendedCopyOptions that
the embedded logic reads or writes: the predecessor lookup. -/
structure ExtendedCopyOptions where
  FindPredecessors : PredecessorFn

/-! ### Referrer-closure resolver (prepareCopyOption) -/

/-- Modelled from the spec: graph.FindPredecessors lives in internal/graph of
this repository, which is not among the provided sources. Per spec section
4.1 step 3 it invokes the base lookup on each child manifest and merges all
referrers into a single collection, propagating the first lookup error. The
theorems below take its output as a hypothesis, so they do not depend on the
internals of this model. -/
def graphFindPredecessors (baseLookup : PredecessorFn) :
    List Descriptor → Except String (List Descriptor)
  | [] => Except.ok []
  | d :: ds => do
    let rs ← baseLookup d
    let rest ← graphFindPredecessors baseLookup ds
    Except.ok (rs ++ rest)

/-- augmentOptions is the closure built at the end of prepareCopyOption:
it first calls the previous FindPredecessors; on error the error is
propagated with no descriptors; when the queried descriptor equals the root
(by content.Equal) the merged referrer list is appended to the result. -/
def augmentOptions (root : Descriptor) (referrers : List Descriptor)
    (opts : ExtendedCopyOptions) : ExtendedCopyOptions :=
  { FindPredecessors := fun desc =>
      match opts.FindPredecessors desc with
      | Except.error e => Except.error e
      | Except.ok descs =>
        if contentEqual desc root then Except.ok (descs ++ referrers)
        else Except.ok descs }

/-- prepareCopyOption mirrors the Go function of the same name. The fetch of
the root content and its JSON decoding (content.FetchAll plus
json.Unmarshal, both external collaborators) are abstracted into the
fetchIndex parameter; a fetch or decode failure is its error case and is
propagated. The final closure is factored out as augmentOptions. -/
def prepareCopyOption (fetchIndex : Descriptor → Except String Index)
    (root : Descriptor) (opts : ExtendedCopyOptions) :
    Except String ExtendedCopyOptions :=
  if root.mediaType != MediaTypeImageIndex && root.mediaType != MediaTypeManifestList then
    Except.ok opts
  else
    match fetchIndex root with
    | Except.error e => Except.error e
    | Except.ok index =>
      if index.manifests.isEmpty then
        Except.ok opts
      else
        match graphFindPredecessors opts.FindPredecessors index.manifests with
        | Except.error e => Except.error e
        | Except.ok referrers0 =>
          let referrers := referrers0.filter fun d => !contentEqual d root
          if referrers.isEmpty then
            Except.ok opts
          else
            Except.ok (augmentOptions root referrers opts)

/-! ### Shared lemmas about prepareCopyOption -/

lemma prepareCopyOption_eq_augment
    (fetchIndex : Descriptor → Except String Index) (root : Descriptor)
    (opts : ExtendedCopyOptions) (index : Index) (rs : List Descriptor)
    (hMedia : root.mediaType = MediaTypeImageIndex ∨ root.mediaType = MediaTypeManifestList)
    (hFetch : fetchIndex root = Except.ok index)
    (hMan : index.manifests ≠ [])
    (hFind : graphFindPredecessors opts.FindPredecessors index.manifests = Except.ok rs)
    (hNe : rs.filter (fun d => !contentEqual d root) ≠ []) :
    prepareCopyOption fetchIndex root opts =
      Except.ok (augmentOptions root (rs.filter fun d => !contentEqual d root) opts) := by
  have hcond : (root.mediaType != MediaTypeImageIndex
      && root.mediaType != MediaTypeManifestList) = false := by
    rcases hMedia with h | h <;> simp [h]
  have hman : index.manifests.isEmpty = false := by
    cases h : index.manifests with
    | nil => exact absurd h hMan
    | cons a l => simp [h]
  have hfil : (rs.filter (fun d => !contentEqual d root)).isEmpty = false := by
    cases h : rs.filter (fun d => !contentEqual d root) with
    | nil => exact absurd h hNe
    | cons a l => simp [h]
  simp [prepareCopyOption, hcond, hFetch, hman, hFind, hfil]

/-! ### C1: augmented predecessor function behaviour -/

/-- C1: for an Index root with a non-empty merged child-referrer set, the
predecessor function returned by prepareCopyOption agrees with the base
lookup on every descriptor not equal to the root (by content.Equal, that is
by digest, media type and size), appends the merged referrer set to the
base result exactly on the root, and propagates a base lookup error with no
descriptors. -/
theorem prepareCopyOption_augmented_lookup
    (fetchIndex : Descriptor → Except String Index) (root : Descriptor)
    (opts : ExtendedCopyOptions) (index : Index) (rs : List Descriptor)
    (hMedia : root.mediaType = MediaTypeImageIndex ∨ root.mediaType = MediaTypeManifestList)
    (hFetch : fetchIndex root = Except.ok index)
    (hMan : index.manifests ≠ [])
    (hFind : graphFindPredecessors opts.FindPredecessors index.manifests = Except.ok rs)
    (hNe : rs.filter (fun d => !contentEqual d root) ≠ []) :
    prepareCopyOption fetchIndex root opts =
      Except.ok (augmentOptions root (rs.filter fun d => !contentEqual d root) opts)
    ∧ (∀ d, contentEqual d root = false →
        (augmentOptions root (rs.filter fun d => !contentEqual d root) opts).FindPredecessors d
          = opts.FindPredecessors d)
    ∧ (∀ d descs, contentEqual d root = true →
        opts.FindPredecessors d = Except.ok descs →
        (augmentOptions root (rs.filter fun d => !contentEqual d root) opts).FindPredecessors d
          = Except.ok (descs ++ rs.filter fun d => !contentEqual d root))
    ∧ (∀ d e, opts.FindPredecessors d = Except.error e →
        (augmentOptions root (rs.filter fun d => !contentEqual d root) opts).FindPredecessors d
          = Except.error e) := by
  refine ⟨prepareCopyOption_eq_augment fetchIndex root opts index rs hMedia hFetch hMan hFind hNe,
    ?_, ?_, ?_⟩
  · intro d hne
    simp only [augmentOptions]
    cases h : opts.FindPredecessors d with
    | error e => rfl
    | ok descs => simp [hne]
  · intro d descs heq hok
    simp [augmentOptions, hok, heq]
  · intro d e herr
    simp [augmentOptions, herr]

/-- Witness scenario for the closure claims: an Index root with one child
manifest whose referrers are a descriptor equal to the root (differing only
in annotations) and one genuine referrer. -/
def wRoot : Descriptor :=
  { mediaType := MediaTypeImageIndex, digest := "sha256:aaa", size := 4, annotations := [] }

def wChild : Descriptor :=
  { mediaType := "application/vnd.oci.image.manifest.v1+json"
  , digest := "sha256:ccc", size := 2, annotations := [] }

def wRootAlias : Descriptor :=
  { mediaType := MediaTypeImageIndex, digest := "sha256:aaa", size := 4
  , annotations := [("k", "v")] }

def wReferrer : Descriptor :=
  { mediaType := "application/vnd.oci.image.manifest.v1+json"
  , digest := "sha256:ddd", size := 3, annotations := [] }

def wBaseLookup : PredecessorFn := fun d =>
  if contentEqual d wChild then Except.ok [wRootAlias, wReferrer] else Except.ok []

def wOpts : ExtendedCopyOptions := { FindPredecessors := wBaseLookup }

def wFetchIndex : Descriptor → Except String Index := fun _ =>
  Except.ok { manifests := [wChild] }

theorem prepareCopyOption_augmented_lookup_witness :
    prepareCopyOption wFetchIndex wRoot wOpts =
      Except.ok (augmentOptions wRoot [wReferrer] wOpts)
    ∧ (augmentOptions wRoot [wReferrer] wOpts).FindPredecessors wRoot
      = Except.ok [wReferrer] := by
  have h := prepareCopyOption_augmented_lookup wFetchIndex wRoot wOpts
    { manifests := [wChild] } [wRootAlias, wReferrer]
    (Or.inl rfl) rfl (by simp) rfl (by decide)
  have hfil : ([wRootAlias, wReferrer].filter fun d => !contentEqual d wRoot) = [wReferrer] := by
    decide
  refine ⟨?_, ?_⟩
  · have h1 := h.1
    rw [hfil] at h1
    exact h1
  · have h3 := h.2.2.1 wRoot [] (by decide) rfl
    rw [hfil] at h3
    simpa using h3

/-! ### C2: self-reference exclusion -/

/-- C2: when the children of an Index root have referrers that include
descriptors equal to the root, every such descriptor is removed from the
merged closure set, so a descriptor equal to the root never appears in the
referrer set that the augmented predecessor function appends for the root. -/
theorem prepareCopyOption_self_exclusion
    (fetchIndex : Descriptor → Except String Index) (root : Descriptor)
    (opts : ExtendedCopyOptions) (index : Index) (rs : List Descriptor)
    (hMedia : root.mediaType = MediaTypeImageIndex ∨ root.mediaType = MediaTypeManifestList)
    (hFetch : fetchIndex root = Except.ok index)
    (hMan : index.manifests ≠ [])
    (hFind : graphFindPredecessors opts.FindPredecessors index.manifests = Except.ok rs)
    (_hSelf : ∃ x ∈ rs, contentEqual x root = true)
    (hNe : rs.filter (fun d => !contentEqual d root) ≠ []) :
    (∀ x ∈ rs.filter (fun d => !contentEqual d root), contentEqual x root = false)
    ∧ (∀ x ∈ rs, contentEqual x root = true →
        x ∉ rs.filter (fun d => !contentEqual d root))
    ∧ prepareCopyOption fetchIndex root opts =
        Except.ok (augmentOptions root (rs.filter fun d => !contentEqual d root) opts)
    ∧ (∀ descs, opts.FindPredecessors root = Except.ok descs →
        (augmentOptions root (rs.filter fun d => !contentEqual d root) opts).FindPredecessors root
          = Except.ok (descs ++ rs.filter fun d => !contentEqual d root)) := by
  refine ⟨?_, ?_,
    prepareCopyOption_eq_augment fetchIndex root opts index rs hMedia hFetch hMan hFind hNe, ?_⟩
  · intro x hx
    have := List.of_mem_filter hx
    simpa using this
  · intro x _ hxeq hmem
    have := List.of_mem_filter hmem
    simp [hxeq] at this
  · intro descs hok
    have hroot : contentEqual root root = true := by
      simp [contentEqual]
    simp [augmentOptions, hok, hroot]

theorem prepareCopyOption_self_exclusion_witness :
    (∀ x ∈ ([wRootAlias, wReferrer].filter fun d => !contentEqual d wRoot),
      contentEqual x wRoot = false)
    ∧ wRootAlias ∉ ([wRootAlias, wReferrer].filter fun d => !contentEqual d wRoot) := by
  have h := prepareCopyOption_self_exclusion wFetchIndex wRoot wOpts
    { manifests := [wChild] } [wRootAlias, wReferrer]
    (Or.inl rfl) rfl (by simp) rfl ⟨wRootAlias, by decide, by decide⟩ (by decide)
  exact ⟨h.1, h.2.1 wRootAlias (by decide) (by decide)⟩

/-! ### C3: no-op fast paths -/

/-- C3: for a root whose media type is neither the OCI image index nor the
Docker manifest list, and likewise for an Index root whose parsed child
manifest list is empty or whose merged child-referrer set is empty after
self-reference exclusion, prepareCopyOption returns the input options
unchanged and no error. -/
theorem prepareCopyOption_noop
    (fetchIndex : Descriptor → Except String Index) (root : Descriptor)
    (opts : ExtendedCopyOptions)
    (h : (root.mediaType ≠ MediaTypeImageIndex ∧ root.mediaType ≠ MediaTypeManifestList)
      ∨ (∃ index, fetchIndex root = Except.ok index ∧ index.manifests = [])
      ∨ (∃ index rs, fetchIndex root = Except.ok index
          ∧ graphFindPredecessors opts.FindPredecessors index.manifests = Except.ok rs
          ∧ rs.filter (fun d => !contentEqual d root) = [])) :
    prepareCopyOption fetchIndex root opts = Except.ok opts := by
  rcases h with ⟨h1, h2⟩ | ⟨index, hFetch, hEmpty⟩ | ⟨index, rs, hFetch, hFind, hFil⟩
  · have hcond : (root.mediaType != MediaTypeImageIndex
        && root.mediaType != MediaTypeManifestList) = true := by
      simp [h1, h2]
    simp [prepareCopyOption, hcond]
  · by_cases hcond : (root.mediaType != MediaTypeImageIndex
        && root.mediaType != MediaTypeManifestList) = true
    · simp [prepareCopyOption, hcond]
    · simp only [Bool.not_eq_true] at hcond
      simp [prepareCopyOption, hcond, hFetch, hEmpty]
  · by_cases hcond : (root.mediaType != MediaTypeImageIndex
        && root.mediaType != MediaTypeManifestList) = true
    · simp [prepareCopyOption, hcond]
    · simp only [Bool.not_eq_true] at hcond
      by_cases hEmpty : index.manifests.isEmpty = true
      · simp [prepareCopyOption, hcond, hFetch, hEmpty]
      · simp only [Bool.not_eq_true] at hEmpty
        simp [prepareCopyOption, hcond, hFetch, hEmpty, hFind, hFil]

def wManifestRoot : Descriptor :=
  { mediaType := "application/vnd.oci.image.manifest.v1+json"
  , digest := "sha256:bbb", size := 7, annotations := [] }

theorem prepareCopyOption_noop_witness :
    prepareCopyOption wFetchIndex wManifestRoot wOpts = Except.ok wOpts := by
  exact prepareCopyOption_noop wFetchIndex wManifestRoot wOpts
    (Or.inl (by refine ⟨?_, ?_⟩ <;> decide))

/-! ### C5: recursive copy dispatch (recursiveCopy) -/

/-- CopyInvocation records which replication-engine entry point recursiveCopy
invokes and with which references: ExtendedCopyGraph replicates the extended
graph without tagging the destination, while ExtendedCopy additionally tags
the destination reference, resolving the source by the given reference. -/
inductive CopyInvocation where
  | extendedCopyGraph (root : Descriptor)
  | extendedCopy (srcRef : String) (dstRef : String)
deriving Repr, DecidableEq

/-- recursiveCopy mirrors the Go function of the same name: it first runs
prepareCopyOption (propagating its error); if the destination reference is
empty or equals the string form of the root digest it calls
oras.ExtendedCopyGraph on the root, otherwise oras.ExtendedCopy with the
root digest string as source reference and the destination reference as the
tag to apply. The engine calls themselves are external; the returned value
records which one is invoked. -/
def recursiveCopy (fetchIndex : Descriptor → Except String Index)
    (root : Descriptor) (dstRef : String) (opts : ExtendedCopyOptions) :
    Except String CopyInvocation :=
  match prepareCopyOption fetchIndex root opts with
  | Except.error e => Except.error e
  | Except.ok _ =>
    if dstRef == "" || dstRef == root.digest then
      Except.ok (CopyInvocation.extendedCopyGraph root)
    else
      Except.ok (CopyInvocation.extendedCopy root.digest dstRef)

/-- C5: in a recursive copy whose option preparation succeeds, an empty
destination reference or one equal to the root digest string leads to a
graph-only extended copy without tagging, and any other destination
reference leads to an extended copy that tags that reference, with the root
digest string as the source reference. -/
theorem recursiveCopy_dispatch
    (fetchIndex : Descriptor → Except String Index) (root : Descriptor)
    (dstRef : String) (opts : ExtendedCopyOptions) (popts : ExtendedCopyOptions)
    (hPrep : prepareCopyOption fetchIndex root opts = Except.ok popts) :
    ((dstRef = "" ∨ dstRef = root.digest) →
      recursiveCopy fetchIndex root dstRef opts
        = Except.ok (CopyInvocation.extendedCopyGraph root))
    ∧ (dstRef ≠ "" → dstRef ≠ root.digest →
      recursiveCopy fetchIndex root dstRef opts
        = Except.ok (CopyInvocation.extendedCopy root.digest dstRef)) := by
  constructor
  · intro hd
    rcases hd with h | h <;> simp [recursiveCopy, hPrep, h]
  · intro h1 h2
    simp [recursiveCopy, hPrep, h1, h2]

theorem recursiveCopy_dispatch_witness :
    recursiveCopy wFetchIndex wManifestRoot "" wOpts
      = Except.ok (CopyInvocation.extendedCopyGraph wManifestRoot)
    ∧ recursiveCopy wFetchIndex wManifestRoot "sha256:bbb" wOpts
      = Except.ok (CopyInvocation.extendedCopyGraph wManifestRoot)
    ∧ recursiveCopy wFetchIndex wManifestRoot "v1" wOpts
      = Except.ok (CopyInvocation.extendedCopy "sha256:bbb" "v1") := by
  have hPrep : prepareCopyOption wFetchIndex wManifestRoot wOpts = Except.ok wOpts := rfl
  refine ⟨?_, ?_, ?_⟩
  · exact (recursiveCopy_dispatch wFetchIndex wManifestRoot "" wOpts wOpts hPrep).1
      (Or.inl rfl)
  · exact (recursiveCopy_dispatch wFetchIndex wManifestRoot "sha256:bbb" wOpts wOpts hPrep).1
      (Or.inr rfl)
  · exact (recursiveCopy_dispatch wFetchIndex wManifestRoot "v1" wOpts wOpts hPrep).2
      (by decide) (by decide)

/-! ### C6: cross-registry mount hint (doCopy) -/

/-- CopyTarget models the runtime type inspection in doCopy: a target either
is a remote registry repository (a *remote.Repository with a registry host
and a repository name) or it is not (an OCI layout store or any other
target, for which the type assertion fails). -/
inductive CopyTarget where
  | remoteRepository (registryHost : String) (repositoryName : String)
  | nonRemote
deriving Repr, DecidableEq

/-- doCopyMountFrom mirrors the mount-hint wiring in doCopy: only when both
source and destination are remote repositories and their registry hosts are
equal is ExtendedCopyOptions.MountFrom set, to a function returning the
source repository name; otherwise MountFrom keeps its default nil value,
modelled as none. -/
def doCopyMountFrom (src dst : CopyTarget) :
    Option (Descriptor → Except String (List String)) :=
  match src, dst with
  | CopyTarget.remoteRepository srcRegistry srcRepository,
    CopyTarget.remoteRepository dstRegistry _ =>
    if srcRegistry == dstRegistry then
      some (fun _ => Except.ok [srcRepository])
    else
      none
  | _, _ => none

/-- C6: a mount hint is supplied iff source and destination are both remote
repositories on the same registry host, and the supplied MountFrom function
returns the source repository name; with a non-remote store on either side,
or differing registry hosts, no mount hint is supplied. -/
theorem doCopy_mount_hint (src dst : CopyTarget) :
    (∀ srcRegistry srcRepository dstRegistry dstRepository,
      src = CopyTarget.remoteRepository srcRegistry srcRepository →
      dst = CopyTarget.remoteRepository dstRegistry dstRepository →
      (srcRegistry = dstRegistry →
        doCopyMountFrom src dst = some (fun _ => Except.ok [srcRepository]))
      ∧ (srcRegistry ≠ dstRegistry → doCopyMountFrom src dst = none))
    ∧ (src = CopyTarget.nonRemote → doCopyMountFrom src dst = none)
    ∧ (dst = CopyTarget.nonRemote → doCopyMountFrom src dst = none) := by
  refine ⟨?_, ?_, ?_⟩
  · intro srcRegistry srcRepository dstRegistry dstRepository hs hd
    subst hs; subst hd
    constructor
    · intro heq
      simp [doCopyMountFrom, heq]
    · intro hne
      simp [doCopyMountFrom, hne]
  · intro hs
    subst hs
    simp [doCopyMountFrom]
  · intro hd
    subst hd
    cases src <;> simp [doCopyMountFrom]

theorem doCopy_mount_hint_witness :
    doCopyMountFrom (CopyTarget.remoteRepository "localhost:5000" "net-monitor")
        (CopyTarget.remoteRepository "localhost:5000" "net-monitor-copy")
      = some (fun _ => Except.ok ["net-monitor"])
    ∧ doCopyMountFrom (CopyTarget.remoteRepository "localhost:5000" "net-monitor")
        (CopyTarget.remoteRepository "localhost:6000" "net-monitor-copy")
      = none
    ∧ doCopyMountFrom CopyTarget.nonRemote
        (CopyTarget.remoteRepository "localhost:5000" "net-monitor-copy")
      = none := by
  refine ⟨?_, ?_, ?_⟩
  · exact ((doCopy_mount_hint (CopyTarget.remoteRepository "localhost:5000" "net-monitor")
      (CopyTarget.remoteRepository "localhost:5000" "net-monitor-copy")).1
      "localhost:5000" "net-monitor" "localhost:5000" "net-monitor-copy" rfl rfl).1 rfl
  · exact ((doCopy_mount_hint (CopyTarget.remoteRepository "localhost:5000" "net-monitor")
      (CopyTarget.remoteRepository "localhost:6000" "net-monitor-copy")).1
      "localhost:5000" "net-monitor" "localhost:6000" "net-monitor-copy" rfl rfl).2
      (by decide)
  · exact (doCopy_mount_hint CopyTarget.nonRemote
      (CopyTarget.remoteRepository "localhost:5000" "net-monitor-copy")).2.1 rfl

/-! ### C7: tracking-scope teardown errors -/

/-- backupTagStep mirrors the per-tag closure in runBackup: StartTracking is
attempted first and its failure is returned outright; the deferred
StopTracking error (given as an Option, none meaning no error) replaces the
result only when the body itself returned without error. The body result is
the referrer count. -/
def backupTagStep (startTracking : Except String Unit)
    (body : Except String Nat) (stopTracking : Option String) :
    Except String Nat :=
  match startTracking with
  | Except.error e => Except.error e
  | Except.ok _ =>
    match body with
    | Except.error e => Except.error e
    | Except.ok n =>
      match stopTracking with
      | some e => Except.error e
      | none => Except.ok n

/-- doCopyTracked mirrors the deferred StopTracking handling in doCopy,
identical in structure to backupTagStep but with the resolved descriptor as
the body result. -/
def doCopyTracked (startTracking : Except String Unit)
    (body : Except String Descriptor) (stopTracking : Option String) :
    Except String Descriptor :=
  match startTracking with
  | Except.error e => Except.error e
  | Except.ok _ =>
    match body with
    | Except.error e => Except.error e
    | Except.ok d =>
      match stopTracking with
      | some e => Except.error e
      | none => Except.ok d

/-- C7: the StopTracking teardown error is surfaced as the step result iff
the step body succeeded; a primary body error is always returned unchanged
and is never replaced by the teardown error, in both the backup per-tag
scope and the copy tracking scope. -/
theorem tracking_teardown_never_masks :
    (∀ (n : Nat) (s : String),
      backupTagStep (Except.ok ()) (Except.ok n) (some s) = Except.error s)
    ∧ (∀ (n : Nat), backupTagStep (Except.ok ()) (Except.ok n) none = Except.ok n)
    ∧ (∀ (e : String) (stop : Option String),
      backupTagStep (Except.ok ()) (Except.error e) stop = Except.error e)
    ∧ (∀ (e : String) (body : Except String Nat) (stop : Option String),
      backupTagStep (Except.error e) body stop = Except.error e)
    ∧ (∀ (d : Descriptor) (s : String),
      doCopyTracked (Except.ok ()) (Except.ok d) (some s) = Except.error s)
    ∧ (∀ (d : Descriptor), doCopyTracked (Except.ok ()) (Except.ok d) none = Except.ok d)
    ∧ (∀ (e : String) (stop : Option String),
      doCopyTracked (Except.ok ()) (Except.error e) stop = Except.error e) := by
  refine ⟨fun n s => rfl, fun n => rfl, fun e stop => rfl, fun e body stop => rfl,
    fun d s => rfl, fun d => rfl, fun e stop => rfl⟩

/-! ### C9: zero-tag discovery failure -/

/-- OrasError mirrors the structured oerrors.Error with its message, usage
line and recommendation. -/
structure OrasError where
  err : String
  usage : String
  recommendation : String
deriving Repr, DecidableEq

/-- findTagsToBackup mirrors the Go function of the same name: explicitly
supplied tags are returned as-is; otherwise all tags are discovered through
the registry listing, given here as the discoverTags argument. -/
def findTagsToBackup (discoverTags : Except String (List String))
    (optsTags : List String) : Except String (List String) :=
  if optsTags.length > 0 then Except.ok optsTags else discoverTags

/-- RunBackupError distinguishes the failure exits of the modelled portion
of runBackup. -/
inductive RunBackupError where
  | tagDiscoveryFailed (msg : String)
  | noTagsFound (e : OrasError)
  | tagStepFailed (msg : String)
deriving Repr, DecidableEq

/-- noTagsFoundError is the structured error built by runBackup when the
resolved tag list is empty, carrying the usage line and the recommendation
to list tags with oras repo tags. -/
def noTagsFoundError (repository commandPath commandUse : String) : OrasError :=
  { err := "no tags found in repository " ++ repository
      ++ ", please specify at least one tag to back up"
  , usage := commandPath ++ " " ++ commandUse
  , recommendation := "If you want to list available tags in " ++ repository
      ++ ", use \"oras repo tags\"" }

/-- runBackupLoop mirrors the per-tag loop of runBackup: tags are processed
in order, each through copyTag (the per-tag tracked step); the first failure
aborts the loop. The second component logs the tags successfully processed
with their referrer counts, so that an aborted run shows exactly which
per-tag copies were performed. -/
def runBackupLoop (copyTag : String → Except String Nat) :
    List String → List (String × Nat) → Except String Unit × List (String × Nat)
  | [], log => (Except.ok (), log)
  | t :: ts, log =>
    match copyTag t with
    | Except.error e => (Except.error e, log)
    | Except.ok n => runBackupLoop copyTag ts (log ++ [(t, n)])

/-- runBackupModel mirrors runBackup from tag discovery through the per-tag
loop: discovery failure is wrapped, an empty tag list yields the structured
no-tags-found error before any per-tag work, and otherwise the tags are
processed in order. Display-handler callbacks, which are external sinks,
are elided. -/
def runBackupModel (discoverTags : Except String (List String))
    (optsTags : List String) (repository commandPath commandUse : String)
    (copyTag : String → Except String Nat) :
    Except RunBackupError Unit × List (String × Nat) :=
  match findTagsToBackup discoverTags optsTags with
  | Except.error e =>
    (Except.error (RunBackupError.tagDiscoveryFailed
      ("failed to get tags to back up: " ++ e)), [])
  | Except.ok tags =>
    if tags.isEmpty then
      (Except.error (RunBackupError.noTagsFound
        (noTagsFoundError repository commandPath commandUse)), [])
    else
      match runBackupLoop copyTag tags [] with
      | (Except.error e, log) => (Except.error (RunBackupError.tagStepFailed e), log)
      | (Except.ok _, log) => (Except.ok (), log)

/-- C9: with no explicit tags and a tag discovery that returns zero tags,
runBackup fails with the structured no-tags-found error carrying the usage
line and the listing recommendation, and performs no per-tag copying. -/
theorem runBackup_no_tags_error
    (repository commandPath commandUse : String)
    (copyTag : String → Except String Nat) :
    runBackupModel (Except.ok []) [] repository commandPath commandUse copyTag
      = (Except.error (RunBackupError.noTagsFound
          { err := "no tags found in repository " ++ repository
              ++ ", please specify at least one tag to back up"
          , usage := commandPath ++ " " ++ commandUse
          , recommendation := "If you want to list available tags in " ++ repository
              ++ ", use \"oras repo tags\"" }), []) := by
  rfl

/-! ### C4: temporary tar file lifecycle (prepareBackupOutput) -/

/-- FinalizeEnv fixes the outcome of each effectful step of
prepareBackupOutput: true means the corresponding call succeeds. -/
structure FinalizeEnv where
  removeIngestOk : Bool
  onTarExportingOk : Bool
  createTempOk : Bool
  tarDirOk : Bool
  closeOk : Bool
  absOk : Bool
  mkdirOk : Bool
  renameOk : Bool
  removeTempOk : Bool
  statOutputOk : Bool
  onTarExportedOk : Bool
deriving Repr, DecidableEq

/-- FinalizeError names the failure exits of prepareBackupOutput in source
order. -/
inductive FinalizeError where
  | onTarExporting
  | createTemp
  | tarDirectory
  | closeTemp
  | absPath
  | mkdirAll
  | rename
  | statOutput
  | onTarExported
deriving Repr, DecidableEq

/-- cleanIngest mirrors the ingest-directory cleanup at the top of
prepareBackupOutput: if the ingest directory exists it is removed
best-effort; a removal failure is only logged. -/
def cleanIngest (removeIngestOk : Bool) (fs : List String) (ingestDir : String) :
    List String :=
  if fs.contains ingestDir then
    (if removeIngestOk then fs.erase ingestDir else fs)
  else fs

/-- prepareBackupOutput mirrors the Go function of the same name, with the
filesystem made explicit as the list of existing paths. In source order: the
ingest directory is removed best-effort; a non-tar output returns at once;
OnTarExporting is reported; a temporary tar file is created (adding
tempTarPath); the staged directory is serialized into it; the file is
closed; the output path is made absolute and its parent directories are
created; the temporary file is renamed onto the output path, and only when
that rename fails is os.Remove called on the temporary file (itself
best-effort); finally the output is stat-ed and reported. Each failing call
returns its error with the filesystem as it stands at that point. -/
def prepareBackupOutput (env : FinalizeEnv) (isTar : Bool) (fs : List String)
    (ingestDir tempTarPath outputPath : String) :
    Except FinalizeError Unit × List String :=
  let fs1 := cleanIngest env.removeIngestOk fs ingestDir
  if !isTar then (Except.ok (), fs1)
  else if !env.onTarExportingOk then (Except.error FinalizeError.onTarExporting, fs1)
  else if !env.createTempOk then (Except.error FinalizeError.createTemp, fs1)
  else
    let fs2 := tempTarPath :: fs1
    if !env.tarDirOk then (Except.error FinalizeError.tarDirectory, fs2)
    else if !env.closeOk then (Except.error FinalizeError.closeTemp, fs2)
    else if !env.absOk then (Except.error FinalizeError.absPath, fs2)
    else if !env.mkdirOk then (Except.error FinalizeError.mkdirAll, fs2)
    else if !env.renameOk then
      (Except.error FinalizeError.rename,
        if env.removeTempOk then fs2.erase tempTarPath else fs2)
    else
      let fs3 := outputPath :: fs2.erase tempTarPath
      if !env.statOutputOk then (Except.error FinalizeError.statOutput, fs3)
      else if !env.onTarExportedOk then (Except.error FinalizeError.onTarExported, fs3)
      else (Except.ok (), fs3)

lemma not_mem_cleanIngest {t : String} {fs : List String} {i : String}
    (h : t ∉ fs) (r : Bool) : t ∉ cleanIngest r fs i := by
  unfold cleanIngest
  split
  · split
    · intro hmem
      exact h (List.mem_of_mem_erase hmem)
    · exact h
  · exact h

/-- envSerializeFail makes every step succeed except the tar serialization
(orasio.TarDirectory). -/
def envSerializeFail : FinalizeEnv :=
  { removeIngestOk := true, onTarExportingOk := true, createTempOk := true
  , tarDirOk := false, closeOk := true, absOk := true, mkdirOk := true
  , renameOk := true, removeTempOk := true, statOutputOk := true
  , onTarExportedOk := true }

/-- C4 counterexample: when the archive serialization fails, the
finalization exits with an error while the temporary tar file is still
present, so the temporary file is not removed on this failure exit path,
contradicting the claim that it is removed on every finalization failure. -/
theorem prepareBackupOutput_leak_counterexample :
    prepareBackupOutput envSerializeFail true [] "ingest" "oras-backup-1.tar" "out.tar"
      = (Except.error FinalizeError.tarDirectory, ["oras-backup-1.tar"])
    ∧ "oras-backup-1.tar"
        ∈ (prepareBackupOutput envSerializeFail true [] "ingest" "oras-backup-1.tar"
            "out.tar").2 := by
  constructor
  · rfl
  · simp [prepareBackupOutput, envSerializeFail, cleanIngest]

/-- C4 amended: on success the temporary tar file is consumed by the atomic
move and absent afterwards; on a rename failure it is removed (when the
removal call itself succeeds); but on an archive-serialization or close
failure the function returns with the temporary file still present, leaking
it. -/
theorem prepareBackupOutput_temp_file
    (env : FinalizeEnv) (fs : List String) (ingestDir tempTarPath outputPath : String)
    (hfs : tempTarPath ∉ fs) (hout : tempTarPath ≠ outputPath) :
    (env.onTarExportingOk = true → env.createTempOk = true → env.tarDirOk = true →
      env.closeOk = true → env.absOk = true → env.mkdirOk = true →
      env.renameOk = true → env.statOutputOk = true → env.onTarExportedOk = true →
      (prepareBackupOutput env true fs ingestDir tempTarPath outputPath).1 = Except.ok ()
      ∧ tempTarPath ∉ (prepareBackupOutput env true fs ingestDir tempTarPath outputPath).2)
    ∧ (env.onTarExportingOk = true → env.createTempOk = true → env.tarDirOk = true →
      env.closeOk = true → env.absOk = true → env.mkdirOk = true →
      env.renameOk = false → env.removeTempOk = true →
      (prepareBackupOutput env true fs ingestDir tempTarPath outputPath).1
        = Except.error FinalizeError.rename
      ∧ tempTarPath ∉ (prepareBackupOutput env true fs ingestDir tempTarPath outputPath).2)
    ∧ (env.onTarExportingOk = true → env.createTempOk = true → env.tarDirOk = false →
      (prepareBackupOutput env true fs ingestDir tempTarPath outputPath).1
        = Except.error FinalizeError.tarDirectory
      ∧ tempTarPath ∈ (prepareBackupOutput env true fs ingestDir tempTarPath outputPath).2)
    ∧ (env.onTarExportingOk = true → env.createTempOk = true → env.tarDirOk = true →
      env.closeOk = false →
      (prepareBackupOutput env true fs ingestDir tempTarPath outputPath).1
        = Except.error FinalizeError.closeTemp
      ∧ tempTarPath ∈ (prepareBackupOutput env true fs ingestDir tempTarPath outputPath).2) := by
  have hclean : tempTarPath ∉ cleanIngest env.removeIngestOk fs ingestDir :=
    not_mem_cleanIngest hfs env.removeIngestOk
  refine ⟨?_, ?_, ?_, ?_⟩
  · intro h1 h2 h3 h4 h5 h6 h7 h8 h9
    simp only [prepareBackupOutput, h1, h2, h3, h4, h5, h6, h7, h8, h9]
    refine ⟨rfl, ?_⟩
    simp only [Bool.not_true, Bool.false_eq_true, if_false, List.erase_cons_head]
    intro hmem
    rcases List.mem_cons.mp hmem with h | h
    · exact hout h
    · exact hclean h
  · intro h1 h2 h3 h4 h5 h6 h7 h8
    simp only [prepareBackupOutput, h1, h2, h3, h4, h5, h6, h7, h8]
    refine ⟨rfl, ?_⟩
    simp only [Bool.not_true, Bool.not_false, Bool.false_eq_true, if_false, if_true,
      List.erase_cons_head]
    exact hclean
  · intro h1 h2 h3
    simp only [prepareBackupOutput, h1, h2, h3]
    exact ⟨rfl, List.mem_cons_self _ _⟩
  · intro h1 h2 h3 h4
    simp only [prepareBackupOutput, h1, h2, h3, h4]
    exact ⟨rfl, List.mem_cons_self _ _⟩

/-- envAllOk makes every finalization step succeed. -/
def envAllOk : FinalizeEnv :=
  { removeIngestOk := true, onTarExportingOk := true, createTempOk := true
  , tarDirOk := true, closeOk := true, absOk := true, mkdirOk := true
  , renameOk := true, removeTempOk := true, statOutputOk := true
  , onTarExportedOk := true }

/-- envRenameFail makes every step succeed except the final rename. -/
def envRenameFail : FinalizeEnv :=
  { removeIngestOk := true, onTarExportingOk := true, createTempOk := true
  , tarDirOk := true, closeOk := true, absOk := true, mkdirOk := true
  , renameOk := false, removeTempOk := true, statOutputOk := true
  , onTarExportedOk := true }

theorem prepareBackupOutput_temp_file_witness :
    ((prepareBackupOutput envAllOk true [] "ingest" "oras-backup-2.tar" "out.tar").1
        = Except.ok ()
      ∧ "oras-backup-2.tar"
          ∉ (prepareBackupOutput envAllOk true [] "ingest" "oras-backup-2.tar" "out.tar").2)
    ∧ ((prepareBackupOutput envRenameFail true [] "ingest" "oras-backup-2.tar" "out.tar").1
        = Except.error FinalizeError.rename
      ∧ "oras-backup-2.tar"
          ∉ (prepareBackupOutput envRenameFail true [] "ingest" "oras-backup-2.tar"
              "out.tar").2) := by
  constructor
  · exact (prepareBackupOutput_temp_file envAllOk [] "ingest" "oras-backup-2.tar" "out.tar"
      (by simp) (by decide)).1 rfl rfl rfl rfl rfl rfl rfl rfl rfl
  · exact (prepareBackupOutput_temp_file envRenameFail [] "ingest" "oras-backup-2.tar"
      "out.tar" (by simp) (by decide)).2.1 rfl rfl rfl rfl rfl rfl rfl rfl

/-! ### Tag grammar and backup reference parsing (C8, C10)

Strings are handled at the character-list level so that every step of the
Go code (strings.LastIndexByte, strings.Split, strings.TrimSpace, the tag
regular expression) is an executable Lean function. -/

/-- isSpaceChar covers the whitespace recognized by unicode.IsSpace in the
Latin-1 range, which strings.TrimSpace trims: space, tab, newline, vertical
tab, form feed, carriage return, next line and no-break space. -/
def isSpaceChar (c : Char) : Bool :=
  c == ' ' || c == '\t' || c == '\n' || c == Char.ofNat 11 || c == Char.ofNat 12
    || c == '\r' || c == Char.ofNat 133 || c == Char.ofNat 160

/-- trimSpace mirrors strings.TrimSpace: leading and trailing whitespace is
removed. -/
def trimSpace (s : List Char) : List Char :=
  ((s.dropWhile isSpaceChar).reverse.dropWhile isSpaceChar).reverse

/-- isWordChar is the character class \w of the Go regexp package in ASCII
mode: letters, digits and underscore. -/
def isWordChar (c : Char) : Bool :=
  decide (('a' ≤ c ∧ c ≤ 'z') ∨ ('A' ≤ c ∧ c ≤ 'Z') ∨ ('0' ≤ c ∧ c ≤ '9') ∨ c = '_')

/-- tagChar is the character class of the regexp tail: \w, dot or dash. -/
def tagChar (c : Char) : Bool :=
  isWordChar c || c == '.' || c == '-'

/-- tagRegexpMatch decides the anchored tag grammar of backup.go, the
regular expression written with a leading word character followed by up to
127 characters drawn from word characters, dot and dash. -/
def tagRegexpMatch : List Char → Bool
  | [] => false
  | c :: cs => isWordChar c && decide (cs.length ≤ 127) && cs.all tagChar

/-- lastIndexByte mirrors strings.LastIndexByte: the index of the last
occurrence of the character, or -1 when absent. -/
def lastIndexByte : List Char → Char → Int
  | [], _ => -1
  | c :: cs, t =>
    let r := lastIndexByte cs t
    if r == -1 then (if c == t then 0 else -1) else r + 1

/-- splitOnComma mirrors strings.Split with a comma separator: the empty
list yields one empty segment, and each comma opens a new segment. -/
def splitOnComma : List Char → List (List Char)
  | [] => [[]]
  | c :: cs =>
    let rest := splitOnComma cs
    if c == ',' then [] :: rest
    else
      match rest with
      | [] => [[c]]
      | h :: t => (c :: h) :: t

/-- BackupParseError mirrors the error exits of parseArtifactsToBackup, each
carrying the values interpolated into the Go error message; in particular
an invalid tag error names the offending (trimmed) tag and the full input
reference. -/
inductive BackupParseError where
  | emptyReference
  | digestReference (ref : List Char)
  | invalidRepository (repoParts : List Char) (msg : String)
  | invalidTag (tag : List Char) (ref : List Char)
deriving Repr, DecidableEq

/-- validateTags mirrors the tag loop of parseArtifactsToBackup: each
comma-separated segment is trimmed; segments empty after trimming are
skipped; the first trimmed segment failing the tag grammar aborts with an
error naming it; valid tags are accumulated in order. -/
def validateTags (ref : List Char) : List (List Char) → Except BackupParseError (List (List Char))
  | [] => Except.ok []
  | tag :: rest =>
    let t := trimSpace tag
    if t.isEmpty then validateTags ref rest
    else if !tagRegexpMatch t then Except.error (BackupParseError.invalidTag t ref)
    else
      match validateTags ref rest with
      | Except.error e => Except.error e
      | Except.ok ts => Except.ok (t :: ts)

/-- parseArtifactsToBackup mirrors the Go function of the same name: the
input must be non-empty and contain no at sign; a colon after the last
slash separates the repository part from the comma-separated tag part; the
repository part is validated by registry.ParseReference of oras-go, an
external collaborator given here as the parseRepo argument returning the
normalized repository string; an empty tag part yields no tags; otherwise
the tag part is split on commas and validated by validateTags. -/
def parseArtifactsToBackup (parseRepo : List Char → Except String (List Char))
    (artifactRefs : List Char) :
    Except BackupParseError (List Char × List (List Char)) :=
  if artifactRefs.isEmpty then Except.error BackupParseError.emptyReference
  else if artifactRefs.contains '@' then
    Except.error (BackupParseError.digestReference artifactRefs)
  else
    let lastSlash := lastIndexByte artifactRefs '/'
    let lastColon := lastIndexByte artifactRefs ':'
    let pair :=
      if lastColon != -1 && decide (lastSlash < lastColon) then
        (artifactRefs.take lastColon.toNat, artifactRefs.drop (lastColon.toNat + 1))
      else
        (artifactRefs, ([] : List Char))
    match parseRepo pair.1 with
    | Except.error e => Except.error (BackupParseError.invalidRepository pair.1 e)
    | Except.ok repository =>
      if pair.2.isEmpty then Except.ok (repository, [])
      else
        match validateTags artifactRefs (splitOnComma pair.2) with
        | Except.error e => Except.error e
        | Except.ok tags => Except.ok (repository, tags)

/-! ### Character-class lemmas -/

lemma isSpaceChar_cases {c : Char} (h : isSpaceChar c = true) :
    c = ' ' ∨ c = '\t' ∨ c = '\n' ∨ c = Char.ofNat 11 ∨ c = Char.ofNat 12
      ∨ c = '\r' ∨ c = Char.ofNat 133 ∨ c = Char.ofNat 160 := by
  simpa [isSpaceChar, or_assoc] using h

lemma not_space_of_wordChar {c : Char} (h : isWordChar c = true) :
    isSpaceChar c = false := by
  cases hs : isSpaceChar c
  · rfl
  · exfalso
    rcases isSpaceChar_cases hs with h1 | h1 | h1 | h1 | h1 | h1 | h1 | h1 <;>
      subst h1 <;> exact absurd h (by decide)

lemma not_space_of_tagChar {c : Char} (h : tagChar c = true) :
    isSpaceChar c = false := by
  unfold tagChar at h
  rcases (Bool.or_eq_true _ _).mp h with h' | h'
  · rcases (Bool.or_eq_true _ _).mp h' with h'' | h''
    · exact not_space_of_wordChar h''
    · have hc : c = '.' := by simpa using h''
      subst hc; decide
  · have hc : c = '-' := by simpa using h'
    subst hc; decide

lemma dropWhile_space_eq_self (l : List Char) (h : ∀ x ∈ l, isSpaceChar x = false) :
    l.dropWhile isSpaceChar = l := by
  cases l with
  | nil => rfl
  | cons a t => simp [List.dropWhile_cons, h a (List.mem_cons_self a t)]

lemma trimSpace_eq_self (l : List Char) (h : ∀ x ∈ l, isSpaceChar x = false) :
    trimSpace l = l := by
  unfold trimSpace
  rw [dropWhile_space_eq_self l h,
    dropWhile_space_eq_self l.reverse (fun x hx => h x (List.mem_reverse.mp hx)),
    List.reverse_reverse]

lemma match_all_not_space {s : List Char} (h : tagRegexpMatch s = true) :
    ∀ x ∈ s, isSpaceChar x = false := by
  cases s with
  | nil => simp [tagRegexpMatch] at h
  | cons c cs =>
    simp only [tagRegexpMatch, Bool.and_eq_true, decide_eq_true_eq,
      List.all_eq_true] at h
    obtain ⟨⟨hw, _⟩, hall⟩ := h
    intro x hx
    rcases List.mem_cons.mp hx with rfl | hx
    · exact not_space_of_wordChar hw
    · exact not_space_of_tagChar (hall x hx)

/-! ### C8: tag grammar enforcement -/

/-- C8: in the tag-validation loop, every string matching the tag grammar is
accepted as-is and prepended to the remaining result; a trimmed tag that
fails the grammar aborts at once, regardless of the remaining tags, with an
error naming the offending tag; and a leading non-word character, any
embedded whitespace surviving the trim, or a length above 128 each make the
grammar fail. -/
theorem backup_tag_grammar (ref s : List Char) (rest : List (List Char)) :
    (tagRegexpMatch s = true →
      validateTags ref (s :: rest)
        = Except.map (fun ts => s :: ts) (validateTags ref rest))
    ∧ (trimSpace s ≠ [] → tagRegexpMatch (trimSpace s) = false →
      validateTags ref (s :: rest)
        = Except.error (BackupParseError.invalidTag (trimSpace s) ref))
    ∧ (∀ c cs, trimSpace s = c :: cs → isWordChar c = false →
      tagRegexpMatch (trimSpace s) = false)
    ∧ ((∃ x ∈ trimSpace s, isSpaceChar x = true) →
      tagRegexpMatch (trimSpace s) = false)
    ∧ ((trimSpace s).length > 128 → tagRegexpMatch (trimSpace s) = false) := by
  refine ⟨?_, ?_, ?_, ?_, ?_⟩
  · intro h
    have hts : trimSpace s = s := trimSpace_eq_self s (match_all_not_space h)
    have hne : s.isEmpty = false := by
      cases s with
      | nil => simp [tagRegexpMatch] at h
      | cons c cs => rfl
    cases hrec : validateTags ref rest <;>
      simp [validateTags, hts, hne, h, hrec, Except.map]
  · intro hne hmatch
    have hemp : (trimSpace s).isEmpty = false := by
      cases h : trimSpace s with
      | nil => exact absurd h hne
      | cons c cs => simp [h]
    simp [validateTags, hemp, hmatch]
  · intro c cs hcs hc
    rw [hcs]
    simp [tagRegexpMatch, hc]
  · rintro ⟨x, hx, hsp⟩
    cases hm : tagRegexpMatch (trimSpace s)
    · rfl
    · exact absurd hsp (by simp [match_all_not_space hm x hx])
  · intro hlen
    cases h : trimSpace s with
    | nil => rfl
    | cons c cs =>
      rw [h] at hlen
      have hcs : ¬(cs.length ≤ 127) := by
        have h' : cs.length + 1 > 128 := by simpa using hlen
        omega
      simp [tagRegexpMatch, hcs]

theorem backup_tag_grammar_witness :
    validateTags ("r".data) ["v1".data] = Except.ok ["v1".data]
    ∧ validateTags ("r".data) [".bad".data]
        = Except.error (BackupParseError.invalidTag (".bad".data) ("r".data)) := by
  constructor
  · have h := (backup_tag_grammar ("r".data) ("v1".data) []).1 (by decide)
    simpa [validateTags, Except.map] using h
  · have h := (backup_tag_grammar ("r".data) (".bad".data) []).2.1 (by decide) (by decide)
    exact h

/-! ### C10: trimming and skipping of tag segments -/

/-- C10: each comma-separated tag segment is trimmed before validation and
segments empty after trimming are skipped, so that a doubled comma is
ignored, a tag with surrounding spaces is accepted in trimmed form, and a
tag part of only commas and whitespace yields zero explicit tags, in which
case findTagsToBackup falls back to remote tag discovery. -/
theorem backup_reference_parsing
    (parseRepo : List Char → Except String (List Char)) (repoNorm : List Char)
    (hpr : parseRepo ("repo".data) = Except.ok repoNorm)
    (discoverTags : Except String (List String)) :
    parseArtifactsToBackup parseRepo ("repo:v1,,v2".data)
      = Except.ok (repoNorm, ["v1".data, "v2".data])
    ∧ parseArtifactsToBackup parseRepo ("repo: v1 ".data)
      = Except.ok (repoNorm, ["v1".data])
    ∧ parseArtifactsToBackup parseRepo ("repo:,, ,".data)
      = Except.ok (repoNorm, [])
    ∧ findTagsToBackup discoverTags [] = discoverTags := by
  refine ⟨?_, ?_, ?_, rfl⟩
  · have h1 : parseArtifactsToBackup parseRepo ("repo:v1,,v2".data)
        = (match parseRepo ("repo".data) with
           | Except.error e =>
             Except.error (BackupParseError.invalidRepository ("repo".data) e)
           | Except.ok repository =>
             Except.ok (repository, ["v1".data, "v2".data])) := rfl
    rw [hpr] at h1
    exact h1
  · have h2 : parseArtifactsToBackup parseRepo ("repo: v1 ".data)
        = (match parseRepo ("repo".data) with
           | Except.error e =>
             Except.error (BackupParseError.invalidRepository ("repo".data) e)
           | Except.ok repository =>
             Except.ok (repository, ["v1".data])) := rfl
    rw [hpr] at h2
    exact h2
  · have h3 : parseArtifactsToBackup parseRepo ("repo:,, ,".data)
        = (match parseRepo ("repo".data) with
           | Except.error e =>
             Except.error (BackupParseError.invalidRepository ("repo".data) e)
           | Except.ok repository => Except.ok (repository, [])) := rfl
    rw [hpr] at h3
    exact h3

theorem backup_reference_parsing_witness :
    parseArtifactsToBackup (fun s => Except.ok s) ("repo:v1,,v2".data)
      = Except.ok (("repo".data), ["v1".data, "v2".data])
    ∧ parseArtifactsToBackup (fun s => Except.ok s) ("repo:,, ,".data)
      = Except.ok (("repo".data), []) := by
  have h := backup_reference_parsing (fun s => Except.ok s) ("repo".data) rfl
    (Except.ok [])
  exact ⟨h.1, h.2.2.1⟩

end Oras
